import Mathlib

set_option maxHeartbeats 1000000
set_option maxRecDepth 4000

/-!
Verification development for the swarmchaser torrent republishing pipeline.

The development shallowly embeds the code of src/cli.py, src/swarmchaser/swarmchaser.py,
src/swarmchaser/models.py and src/swarmchaser/utils.py.  The bencode codec
(pyben) and the SHA-1 primitive (hashlib) are external collaborators whose code
is not part of src/; they are modelled from the specification (see the doc
comments on benencode, bdecodeV and sha1hex).
-/

/-- Byte sequences are lists of naturals; every byte produced by the embedded
code is below 256. -/
abbrev Bytes := List Nat

/-- ASCII byte sequence of a string literal; the source only stores ASCII field
names and tags inside bencode documents. -/
def bsl (s : String) : Bytes := s.toList.map Char.toNat

/-- Byte-wise lexicographic comparison, the order Python's sorted() uses on
byte-string keys. -/
def lexLe : Bytes → Bytes → Bool
  | [], _ => true
  | _ :: _, [] => false
  | a :: as, b :: bb => if a < b then true else if b < a then false else lexLe as bb

/-- The bencode value model of spec section 3: integers, byte strings, lists and
dictionaries.  Dictionaries are association lists in Python-dict insertion
order; the codec canonicalizes key order on encoding. -/
inductive Bencode where
  | int (n : Int)
  | str (s : Bytes)
  | list (xs : List Bencode)
  | dict (xs : List (Bytes × Bencode))

/-- Decimal digit bytes of a natural number. -/
def natDecimal (n : Nat) : Bytes := (Nat.toDigits 10 n).map Char.toNat

/-- Decimal digit bytes of an integer, with a leading minus sign byte when
negative. -/
def intDecimal (n : Int) : Bytes :=
  if n < 0 then 45 :: natDecimal n.natAbs else natDecimal n.natAbs

/-- Bencode byte-string encoding: decimal length, a colon, the raw bytes. -/
def encStr (s : Bytes) : Bytes := natDecimal s.length ++ (58 :: s)

/-- Ordering of encoded dictionary entries by their key bytes. -/
def entryLe (a b : Bytes × Bytes) : Prop := lexLe a.1 b.1 = true

instance : DecidableRel entryLe := fun a b => by unfold entryLe; infer_instance

/-- Sort encoded dictionary entries by key, ascending byte-wise. -/
def sortEntries (l : List (Bytes × Bytes)) : List (Bytes × Bytes) :=
  List.insertionSort entryLe l

/-- Concatenate the encoded key-value blobs of a dictionary body. -/
def dictBody : List (Bytes × Bytes) → Bytes
  | [] => []
  | kb :: xs => kb.2 ++ dictBody xs

mutual

/-- Modelled from the spec: BencodeCodec.encode (pyben.benencode, a dependency
that is not part of src/).  Serializes a value; for Dictionary values the keys
are emitted in strictly ascending byte-wise order regardless of input map
iteration order (spec section 4.1). -/
def benencode : Bencode → Bytes
  | .int n => 105 :: intDecimal n ++ [101]
  | .str s => encStr s
  | .list xs => 108 :: encList xs ++ [101]
  | .dict xs => 100 :: dictBody (sortEntries (encEntries xs)) ++ [101]

/-- Encoded elements of a bencode list, in order. -/
def encList : List Bencode → Bytes
  | [] => []
  | x :: xs => benencode x ++ encList xs

/-- For each dictionary entry, its key together with the encoded key-value
blob; the blobs are emitted after sorting by key. -/
def encEntries : List (Bytes × Bencode) → List (Bytes × Bytes)
  | [] => []
  | kv :: xs => (kv.1, encStr kv.1 ++ benencode kv.2) :: encEntries xs

end

/-- The entry map underlying encEntries. -/
def encEntry (kv : Bytes × Bencode) : Bytes × Bytes :=
  (kv.1, encStr kv.1 ++ benencode kv.2)

/-- Key order of the encoded form of a dictionary: the keys in the order the
codec emits them. -/
def encKeys (xs : List (Bytes × Bencode)) : List Bytes :=
  (sortEntries (encEntries xs)).map Prod.fst

/-- ASCII decimal digit test on a byte. -/
def isDigitB (c : Nat) : Bool := 48 ≤ c && c ≤ 57

/-- Split a byte sequence into its maximal leading run of decimal digits and
the remainder. -/
def readDigits : Bytes → Bytes × Bytes
  | [] => ([], [])
  | c :: cs =>
    if isDigitB c then
      let p := readDigits cs
      (c :: p.1, p.2)
    else ([], c :: cs)

/-- Value of a decimal digit byte run. -/
def digitsVal (ds : Bytes) : Nat := ds.foldl (fun a c => a * 10 + (c - 48)) 0

mutual

/-- Modelled from the spec: BencodeCodec.decode (pyben.bendecode, a dependency
that is not part of src/).  Parses one encoded value from the front of a byte
sequence and returns it with the remaining bytes; malformed input yields none
(spec section 4.1).  The fuel argument bounds recursion depth. -/
def bdecodeV : Nat → Bytes → Option (Bencode × Bytes)
  | 0, _ => none
  | _, [] => none
  | fuel + 1, c :: cs =>
    if c = 105 then
      match cs with
      | 45 :: ds =>
        match readDigits ds with
        | ([], _) => none
        | (digs, rest) =>
          match rest with
          | 101 :: r => some (.int (-(digitsVal digs : Int)), r)
          | _ => none
      | _ =>
        match readDigits cs with
        | ([], _) => none
        | (digs, rest) =>
          match rest with
          | 101 :: r => some (.int (digitsVal digs : Int), r)
          | _ => none
    else if c = 108 then
      match bdecodeL fuel cs with
      | some (vs, r) => some (.list vs, r)
      | none => none
    else if c = 100 then
      match bdecodeD fuel cs with
      | some (kvs, r) => some (.dict kvs, r)
      | none => none
    else if isDigitB c then
      match readDigits (c :: cs) with
      | (digs, rest) =>
        match rest with
        | 58 :: r =>
          let n := digitsVal digs
          if n ≤ r.length then some (.str (r.take n), r.drop n) else none
        | _ => none
    else none

/-- List tail parser: elements until the terminator byte e. -/
def bdecodeL : Nat → Bytes → Option (List Bencode × Bytes)
  | 0, _ => none
  | fuel + 1, b =>
    match b with
    | 101 :: r => some ([], r)
    | _ =>
      match bdecodeV fuel b with
      | some (v, r) =>
        match bdecodeL fuel r with
        | some (vs, r2) => some (v :: vs, r2)
        | none => none
      | none => none

/-- Dictionary tail parser: byte-string keys with values until the terminator
byte e; keys of a valid metainfo are unique (spec section 3). -/
def bdecodeD : Nat → Bytes → Option (List (Bytes × Bencode) × Bytes)
  | 0, _ => none
  | fuel + 1, b =>
    match b with
    | 101 :: r => some ([], r)
    | _ =>
      match bdecodeV fuel b with
      | some (.str k, r) =>
        match bdecodeV fuel r with
        | some (v, r2) =>
          match bdecodeD fuel r2 with
          | some (kvs, r3) => some ((k, v) :: kvs, r3)
          | none => none
        | none => none
      | some _ => none
      | none => none

end

/-- Decode one bencode value from the front of a byte sequence, with enough
fuel for any input of this length. -/
def bdecode (t : Bytes) : Option (Bencode × Bytes) := bdecodeV (t.length + 1) t

/-- Python dict lookup d[k] on the association-list model, returning none for
a missing key. -/
def lookupD : List (Bytes × Bencode) → Bytes → Option Bencode
  | [], _ => none
  | kv :: xs, k => if kv.1 = k then some kv.2 else lookupD xs k

/-- Python dict assignment d[k] = v: overwrite in place when the key exists,
append otherwise. -/
def dictSet : List (Bytes × Bencode) → Bytes → Bencode → List (Bytes × Bencode)
  | [], k, v => [(k, v)]
  | kv :: xs, k, v => if kv.1 = k then (k, v) :: xs else kv :: dictSet xs k v

/-- Ordering used by Python's sorted() on the key list of the info dict. -/
def byteLe (a b : Bytes) : Prop := lexLe a b = true

instance : DecidableRel byteLe := fun a b => by unfold byteLe; infer_instance

/-- sorted(info.keys()) of TorrentMaker.setup_torrent. -/
def sortBytes (l : List Bytes) : List Bytes := List.insertionSort byteLe l

/-- Rebuild a dictionary by walking a key list and copying each key's binding,
as the OrderedDict loop of TorrentMaker.setup_torrent does. -/
def pairsOf (info : List (Bytes × Bencode)) (ks : List Bytes) : List (Bytes × Bencode) :=
  ks.filterMap (fun k => (lookupD info k).map (fun v => (k, v)))

/-- The rewritten info dictionary of TorrentMaker.setup_torrent
(src/swarmchaser/swarmchaser.py lines 327-334): copy the decoded info dict,
set private and source, then reorder the keys ascending. -/
def new_info (source : Bytes) (priv : Bool) (infoL : List (Bytes × Bencode)) :
    List (Bytes × Bencode) :=
  let info1 := dictSet infoL (bsl "private") (.int (if priv then 1 else 0))
  let info2 := dictSet info1 (bsl "source") (.str source)
  pairsOf info2 (sortBytes (info2.map Prod.fst))

/-- TorrentMaker.setup_torrent on an already decoded top-level dictionary
(src/swarmchaser/swarmchaser.py lines 320-338).  The rebuilt top level holds
announce, creation date and info, in that insertion order; a document without
an info dictionary raises in Python, modelled by none. -/
def setup_torrent_doc (announce source : Bytes) (priv : Bool) (now : Int)
    (torrent : List (Bytes × Bencode)) : Option (List (Bytes × Bencode)) :=
  match lookupD torrent (bsl "info") with
  | some (.dict infoL) =>
    some [(bsl "announce", .str announce), (bsl "creation date", .int now),
          (bsl "info", .dict (new_info source priv infoL))]
  | _ => none

/-- TorrentMaker.setup_torrent from the raw downloaded bytes: pyben.bendecode
then the rewrite; undecodable input raises in Python, modelled by none. -/
def setup_torrent (announce source : Bytes) (priv : Bool) (now : Int)
    (bytestring : Bytes) : Option (List (Bytes × Bencode)) :=
  match bdecode bytestring with
  | some (.dict tl, _) => setup_torrent_doc announce source priv now tl
  | _ => none

/-- Reduction of a natural modulo two to the thirty-second power, the word
size of SHA-1. -/
def w32 (n : Nat) : Nat := n % 4294967296

/-- Left rotation of a 32-bit word by b bits. -/
def rotl (b n : Nat) : Nat := (n * 2 ^ b) % 4294967296 + n / 2 ^ (32 - b)

/-- Big-endian byte expansion of a natural to a fixed width. -/
def beBytes : Nat → Nat → Bytes
  | 0, _ => []
  | k + 1, v => beBytes k (v / 256) ++ [v % 256]

/-- SHA-1 message padding: the 1 bit, zero bytes to 56 modulo 64, then the
bit length as eight big-endian bytes. -/
def sha1pad (msg : Bytes) : Bytes :=
  let l := msg.length
  msg ++ (128 :: List.replicate ((119 - l % 64) % 64) 0) ++ beBytes 8 (8 * l)

/-- Big-endian 32-bit words of a byte sequence. -/
def toWords : Bytes → List Nat
  | b0 :: b1 :: b2 :: b3 :: rest =>
    (((b0 * 256 + b1) * 256 + b2) * 256 + b3) :: toWords rest
  | _ => []

/-- Split a word list into byte-block sized groups of sixteen words. -/
def chunkWords : Nat → List Nat → List (List Nat)
  | 0, _ => []
  | _, [] => []
  | n + 1, ws => ws.take 16 :: chunkWords n (ws.drop 16)

/-- SHA-1 message-schedule extension of a chunk's word list. -/
def extendW : Nat → List Nat → List Nat
  | 0, ws => ws
  | k + 1, ws =>
    let n := ws.length
    let w := rotl 1 (((ws.getD (n - 3) 0) ^^^ (ws.getD (n - 8) 0)) ^^^
      ((ws.getD (n - 14) 0) ^^^ (ws.getD (n - 16) 0)))
    extendW k (ws ++ [w])

/-- The five SHA-1 working words. -/
structure Sha1State where
  a : Nat
  b : Nat
  c : Nat
  d : Nat
  e : Nat

/-- Bitwise complement within a 32-bit word. -/
def notW (x : Nat) : Nat := x ^^^ 4294967295

/-- SHA-1 round function, selected by round index. -/
def shaF (i b c d : Nat) : Nat :=
  if i < 20 then (b &&& c) ||| (notW b &&& d)
  else if i < 40 then (b ^^^ c) ^^^ d
  else if i < 60 then ((b &&& c) ||| (b &&& d)) ||| (c &&& d)
  else (b ^^^ c) ^^^ d

/-- SHA-1 round constant, selected by round index. -/
def shaK (i : Nat) : Nat :=
  if i < 20 then 1518500249
  else if i < 40 then 1859775393
  else if i < 60 then 2400959708
  else 3395469782

/-- One SHA-1 compression round. -/
def shaRound (w : List Nat) (s : Sha1State) (i : Nat) : Sha1State :=
  let t := w32 (rotl 5 s.a + shaF i s.b s.c s.d + s.e + shaK i + w.getD i 0)
  ⟨t, s.a, rotl 30 s.b, s.c, s.d⟩

/-- SHA-1 compression of one 64-byte chunk into the running state. -/
def shaChunk (h : Sha1State) (ws : List Nat) : Sha1State :=
  let w := extendW 64 ws
  let s := (List.range 80).foldl (shaRound w) h
  ⟨w32 (h.a + s.a), w32 (h.b + s.b), w32 (h.c + s.c), w32 (h.d + s.d), w32 (h.e + s.e)⟩

/-- The SHA-1 initialization vector. -/
def sha1init : Sha1State := ⟨1732584193, 4023233417, 2562383102, 271733878, 3285377520⟩

/-- SHA-1 state after absorbing a whole padded message. -/
def sha1state (msg : Bytes) : Sha1State :=
  (chunkWords (msg.length + 64) (toWords (sha1pad msg))).foldl shaChunk sha1init

/-- Lowercase hexadecimal digit of a value below sixteen. -/
def hexDigit (n : Nat) : Char := if n < 10 then Char.ofNat (48 + n) else Char.ofNat (87 + n)

/-- Fixed-width lowercase hexadecimal digits of a natural. -/
def hexN : Nat → Nat → List Char
  | 0, _ => []
  | k + 1, v => hexN k (v / 16) ++ [hexDigit (v % 16)]

/-- Modelled from the spec: the SHA-1 digest primitive (hashlib.sha1(...)
.hexdigest(), a standard-library collaborator that is not part of src/),
as the lowercase hex rendering of the standard 20-byte SHA-1 digest. -/
def sha1hex (msg : Bytes) : String :=
  let h := sha1state msg
  String.mk (hexN 8 h.a ++ hexN 8 h.b ++ hexN 8 h.c ++ hexN 8 h.d ++ hexN 8 h.e)

/-- infohash (src/swarmchaser/swarmchaser.py lines 387-389): decode the
metainfo, re-encode its info dictionary with the codec, and return the SHA-1
hexdigest; a document that does not decode to a dictionary holding an info key
raises in Python, modelled by none. -/
def infohash (torrent : Bytes) : Option String :=
  match bdecode torrent with
  | some (.dict tl, _) => (lookupD tl (bsl "info")).map (fun v => sha1hex (benencode v))
  | _ => none

/-- Python str.strip() whitespace test (ASCII whitespace, which covers every
string the embedded claims evaluate). -/
def isPySpace (c : Char) : Bool :=
  c = ' ' || c = '\t' || c = '\n' || c = '\r' || c = '\x0b' || c = '\x0c'

/-- Python str.strip(): drop whitespace from both ends. -/
def pyStripL (cs : List Char) : List Char :=
  ((cs.dropWhile isPySpace).reverse.dropWhile isPySpace).reverse

/-- format_genre (src/swarmchaser/utils.py lines 132-136): the compound-genre
special case, then strip, lower-case, remove periods, replace spaces with
periods. -/
def format_genre (genre : String) : String :=
  if genre = "Folk, World, & Country" then ""
  else
    String.mk ((((pyStripL genre.toList).map Char.toLower).filter (fun c => c ≠ '.')).map
      (fun c => if c = ' ' then '.' else c))

/-- Python str.split(sep) for a single separator character. -/
def splitOnCharL (sep : Char) : List Char → List (List Char)
  | [] => [[]]
  | c :: cs =>
    let r := splitOnCharL sep cs
    if c = sep then [] :: r
    else
      match r with
      | [] => [[c]]
      | x :: xs => (c :: x) :: xs

/-- parse_genres (src/swarmchaser/utils.py lines 115-129): pick the first of
the separators pipe, comma, slash occurring in the field, split on it when one
is found, and normalize each piece with format_genre. -/
def parse_genres (genres : String) : List String :=
  match [ '|', ',', '/' ].find? (fun sep => genres.toList.contains sep) with
  | some sep => (splitOnCharL sep genres.toList).map (fun p => format_genre (String.mk p))
  | none => [format_genre genres]

/-- The parsed release fields of parse_releasename
(src/swarmchaser/swarmchaser.py lines 25-30). -/
structure ReleaseName where
  artist : String
  album : String
  year : Int
  genres : List String
deriving DecidableEq, Repr

/-- Character class of the genre capture group: ASCII letters, whitespace,
comma, period, hyphen. -/
def genreCls (c : Char) : Bool :=
  (('A' ≤ c && c ≤ 'Z') || ('a' ≤ c && c ≤ 'z')) || isPySpace c || c = ',' || c = '.' || c = '-'

/-- Character class of the format capture group: ASCII upper-case letters. -/
def upperCls (c : Char) : Bool := 'A' ≤ c && c ≤ 'Z'

/-- Character class of the dot pattern: any character except newline. -/
def dotCls (c : Char) : Bool := c ≠ '\n'

/-- Length of the maximal leading run of class characters. -/
def runLen (p : Char → Bool) : List Char → Nat
  | [] => 0
  | c :: cs => if p c then runLen p cs + 1 else 0

/-- Greedy backtracking over a star: try the longest split first, then
shorter ones, as the regex engine does. -/
def tryLens (f : Nat → Option α) : Nat → Option α
  | 0 => f 0
  | n + 1 =>
    match f (n + 1) with
    | some r => some r
    | none => tryLens f n

/-- Match a literal pattern at the front, returning the remainder. -/
def litPref : List Char → List Char → Option (List Char)
  | [], cs => some cs
  | _, [] => none
  | p :: ps, c :: cs => if p = c then litPref ps cs else none

/-- Greedy star over a one-character class followed by a continuation,
backtracking from the longest run, as the regex engine matches cls* . -/
def starThen (cls : Char → Bool) (cs : List Char)
    (k : List Char → List Char → Option α) : Option α :=
  tryLens (fun n => k (cs.take n) (cs.drop n)) (runLen cls cs)

/-- Numeric value of a run of decimal digit characters. -/
def digitsValC (ds : List Char) : Nat := ds.foldl (fun a c => a * 10 + (c.toNat - 48)) 0

/-- parse_releasename (src/swarmchaser/swarmchaser.py lines 33-47): the
anchored pattern ( genre ) [ FORMAT ] artist - album - yyyy,  with greedy
backtracking exactly as Python re.match applies it, capturing artist, album,
year and the normalized genre tags. -/
def parse_releasename (releasename : String) : Option ReleaseName :=
  let cs := releasename.toList
  match litPref ['('] cs with
  | none => none
  | some cs1 =>
    starThen genreCls cs1 (fun g cs2 =>
      match litPref [')', ' ', '['] cs2 with
      | none => none
      | some cs3 =>
        starThen upperCls cs3 (fun _fmt cs4 =>
          match litPref [']', ' '] cs4 with
          | none => none
          | some cs5 =>
            starThen dotCls cs5 (fun a cs6 =>
              match litPref [' ', '-', ' '] cs6 with
              | none => none
              | some cs7 =>
                starThen dotCls cs7 (fun b cs8 =>
                  match litPref [' ', '-', ' '] cs8 with
                  | none => none
                  | some cs9 =>
                    let year := cs9.take 4
                    if year.length = 4 && year.all Char.isDigit then
                      (match litPref [',', ' '] (cs9.drop 4) with
                       | none => none
                       | some _ =>
                         some ⟨String.mk a, String.mk b, (digitsValC year : Int),
                               parse_genres (String.mk g)⟩)
                    else none))))

/-- TorrentStatus (src/swarmchaser/models.py lines 24-29). -/
inductive TorrentStatus where
  | tracked
  | eligible
  | downloaded
  | uploaded
  | ineligible
deriving DecidableEq, Repr

/-- The enum value of each status in models.py; the forward-only ordering of
the lifecycle is increase of this value. -/
def statusRank : TorrentStatus → Nat
  | .tracked => 1
  | .eligible => 2
  | .downloaded => 3
  | .uploaded => 4
  | .ineligible => 10

/-- The slice of a Discogs full release record the eligibility step inspects:
update_eligibility asserts that its artists field is not None. -/
structure DiscogsRelease where
  artists : Option (List String)
deriving DecidableEq, Repr

/-- A row of the torrents table (src/swarmchaser/models.py lines 65-91),
restricted to the columns the pipeline reads or writes. -/
structure TorrentRec where
  id : Int
  rutracker_id : Int
  releasename : String
  artist : String
  album : String
  year : Int
  download_url : String
  source_infohash : String
  target_infohash : Option String
  discogs_release_id : Option Int
  discogs_release : Option DiscogsRelease
  last_updated : Int
  status : TorrentStatus
deriving DecidableEq, Repr

/-- Torrent.search_query (src/swarmchaser/models.py lines 87-88). -/
def search_query (r : TorrentRec) : String :=
  r.artist ++ " - " ++ r.album ++ " - " ++ toString r.year

/-- Python exceptions the embedded pipeline can raise. -/
inductive PyError where
  | attributeError
  | assertionError
  | keyError
  | typeError
  | jackettException
  | decodeError
deriving DecidableEq, Repr

/-- Collaborator calls and download-client actions the pipeline issues. -/
inductive Call where
  | discogsSearch (q : String)
  | discogsRelease (id : Int)
  | redactedSearch (q : String)
  | fetchTorrent (url : String)
  | redactedUpload (recId : Int)
  | qbtAdd (torrentFile : Bytes) (category : String) (tags : Option String)
  | qbtDelete (infohashV : String)
deriving DecidableEq, Repr

/-- Loop body of models.update_eligibility (src/swarmchaser/models.py lines
104-133) for one tracked record: Discogs search, the artists assertion, the
Redacted duplicate check, and the resulting field updates.  The collaborators
are oracles: discogsO is Discogs.search, releaseO is Discogs.release, and
redactedO is Redacted.check_exists on the record's query. -/
def eligRecord (discogsO : String → Option Int) (releaseO : Int → DiscogsRelease)
    (redactedO : String → Bool) (now : Int) (r : TorrentRec) :
    Except PyError (TorrentRec × List Call) :=
  let q := search_query r
  match discogsO q with
  | none => .ok ({ r with status := .ineligible }, [.discogsSearch q])
  | some did =>
    let rel := releaseO did
    match rel.artists with
    | none => .error .assertionError
    | some _ =>
      let r1 := { r with discogs_release_id := some did, discogs_release := some rel }
      if redactedO q then
        .ok ({ r1 with status := .ineligible },
             [.discogsSearch q, .discogsRelease did, .redactedSearch q])
      else
        .ok ({ r1 with status := .eligible, last_updated := now },
             [.discogsSearch q, .discogsRelease did, .redactedSearch q])

/-- models.update_eligibility (src/swarmchaser/models.py lines 94-140): the
session query selects exactly the records in status tracked; each of them runs
eligRecord, every other record is untouched; an uncaught exception aborts the
run before session.commit, modelled by the error outcome. -/
def update_eligibility (discogsO : String → Option Int) (releaseO : Int → DiscogsRelease)
    (redactedO : String → Bool) (now : Int) :
    List TorrentRec → Except PyError (List TorrentRec × List Call)
  | [] => .ok ([], [])
  | r :: rs =>
    if r.status = .tracked then
      match eligRecord discogsO releaseO redactedO now r with
      | .error e => .error e
      | .ok (r', cs) =>
        match update_eligibility discogsO releaseO redactedO now rs with
        | .error e => .error e
        | .ok (rs', cs') => .ok (r' :: rs', cs ++ cs')
    else
      match update_eligibility discogsO releaseO redactedO now rs with
      | .error e => .error e
      | .ok (rs', cs') => .ok (r :: rs', cs')

/-- cli.download together with qBittorrent.download (src/cli.py lines 84-100,
src/swarmchaser/swarmchaser.py lines 357-378): the query selects the records
in status eligible; a record whose source infohash is already present in the
client is skipped unchanged; the rest are fetched, added to the client, and
marked downloaded with a fresh timestamp.  fetchO is the torrent-file download
collaborator. -/
def download_cmd (existing : List String) (fetchO : String → Bytes) (category : String)
    (now : Int) : List TorrentRec → List TorrentRec × List Call
  | [] => ([], [])
  | r :: rs =>
    let p := download_cmd existing fetchO category now rs
    if r.status = .eligible then
      if r.source_infohash ∈ existing then (r :: p.1, p.2)
      else
        ({ r with status := .downloaded, last_updated := now } :: p.1,
         .fetchTorrent r.download_url :: .qbtAdd (fetchO r.download_url) category none :: p.2)
    else (r :: p.1, p.2)

/-- A decoded-JSON value, as requests' response.json() returns it to the
upload loop. -/
inductive PyVal where
  | str (s : String)
  | int (n : Int)
  | dict (xs : List (String × PyVal))

/-- Lookup in a decoded-JSON dictionary. -/
def pyDictGet : List (String × PyVal) → String → Option PyVal
  | [], _ => none
  | kv :: xs, k => if kv.1 = k then some kv.2 else pyDictGet xs k

/-- Python subscription v[k]: KeyError when a dict lacks the key, TypeError on
a non-dict. -/
def pyIndex (v : PyVal) (k : String) : Except PyError PyVal :=
  match v with
  | .dict xs =>
    match pyDictGet xs k with
    | some x => .ok x
    | none => .error .keyError
  | _ => .error .typeError

/-- The attribute names a plain Python dict object exposes. -/
def pyDictAttrs : List String :=
  ["clear", "copy", "fromkeys", "get", "items", "keys", "pop", "popitem",
   "setdefault", "update", "values"]

/-- Attribute access on a decoded-JSON value: a plain dict offers only the
dict methods, so in particular no attribute named json. -/
def pyHasAttr (v : PyVal) (attrName : String) : Bool :=
  match v with
  | .dict _ => pyDictAttrs.contains attrName
  | _ => false

/-- Python equality of response with the string success, as the loop tests
it: a non-string compares unequal rather than raising. -/
def pyIsSuccess (v : PyVal) : Bool :=
  match v with
  | .str s => s = "success"
  | _ => false

/-- Body of the for-loop of cli.upload (src/cli.py lines 124-153) for one
selected record.  respO models Redacted.upload, the decoded JSON the tracker
returns for the record; fetchO models the torrent-file download inside
TorrentMaker.create; announce and source are the configured Redacted announce
URL and source tag, with private left at its default of true.  On success the
record is marked uploaded, its target infohash recorded, the rewritten file
added to the client and the original deleted by source infohash.  On failure
the code evaluates the log message, whose response.json() call is attribute
access on a plain dict and raises AttributeError. -/
def uploadRecord (respO : Int → PyVal) (fetchO : String → Bytes)
    (announce source : Bytes) (now : Int) (r : TorrentRec) :
    Except PyError (TorrentRec × List Call) :=
  let resp := respO r.id
  match pyIndex resp "status" with
  | .error e => .error e
  | .ok sv =>
    if pyIsSuccess sv then
      match pyIndex resp "response" with
      | .error e => .error e
      | .ok inner =>
        match pyIndex inner "torrentid", pyIndex inner "groupid" with
        | .ok _, .ok _ =>
          let src := fetchO r.download_url
          if src = [] then .error .jackettException
          else
            match setup_torrent announce source true now src with
            | none => .error .decodeError
            | some doc =>
              let bytes := benencode (.dict doc)
              if (infohash bytes).isSome then
                .ok ({ r with status := .uploaded, last_updated := now,
                              target_infohash := infohash bytes },
                     [.redactedUpload r.id,
                      .qbtAdd bytes "swarmchaser" (some "myupload"),
                      .qbtDelete r.source_infohash])
              else .error .decodeError
        | .error e, _ => .error e
        | _, .error e => .error e
    else
      if pyHasAttr resp "json" then .ok (r, [.redactedUpload r.id])
      else .error .attributeError

/-- The sequential upload loop over the selected records; an uncaught
exception aborts it before session.commit, discarding every update, modelled
by the error outcome. -/
def upload_loop (respO : Int → PyVal) (fetchO : String → Bytes)
    (announce source : Bytes) (now : Int) :
    List TorrentRec → Except PyError (List TorrentRec × List Call)
  | [] => .ok ([], [])
  | r :: rs =>
    match uploadRecord respO fetchO announce source now r with
    | .error e => .error e
    | .ok (r', cs) =>
      match upload_loop respO fetchO announce source now rs with
      | .error e => .error e
      | .ok (rs', cs') => .ok (r' :: rs', cs ++ cs')

/-- The branch of cli.upload invoked with an explicit record id: the query
first() picks the first record with that id regardless of its status; when no
record matches, first() is None and the following attribute access raises. -/
def upload_by_id (respO : Int → PyVal) (fetchO : String → Bytes)
    (announce source : Bytes) (now : Int) (i : Int) :
    List TorrentRec → Except PyError (List TorrentRec × List Call)
  | [] => .error .attributeError
  | r :: rs =>
    if r.id = i then
      match uploadRecord respO fetchO announce source now r with
      | .error e => .error e
      | .ok (r', cs) => .ok (r' :: rs, cs)
    else
      match upload_by_id respO fetchO announce source now i rs with
      | .error e => .error e
      | .ok (rs', cs) => .ok (r :: rs', cs)

/-- The branch of cli.upload without an id: the query selects exactly the
records in status downloaded; every other record is untouched. -/
def upload_downloaded (respO : Int → PyVal) (fetchO : String → Bytes)
    (announce source : Bytes) (now : Int) :
    List TorrentRec → Except PyError (List TorrentRec × List Call)
  | [] => .ok ([], [])
  | r :: rs =>
    if r.status = .downloaded then
      match uploadRecord respO fetchO announce source now r with
      | .error e => .error e
      | .ok (r', cs) =>
        match upload_downloaded respO fetchO announce source now rs with
        | .error e => .error e
        | .ok (rs', cs') => .ok (r' :: rs', cs ++ cs')
    else
      match upload_downloaded respO fetchO announce source now rs with
      | .error e => .error e
      | .ok (rs', cs') => .ok (r :: rs', cs')

/-- cli.upload (src/cli.py lines 103-156): record selection by the optional
id, then the upload loop over the selection. -/
def upload_cmd (respO : Int → PyVal) (fetchO : String → Bytes)
    (announce source : Bytes) (now : Int) (idOpt : Option Int)
    (db : List TorrentRec) : Except PyError (List TorrentRec × List Call) :=
  match idOpt with
  | some i => upload_by_id respO fetchO announce source now i db
  | none => upload_downloaded respO fetchO announce source now db

/-- One invocation of a pipeline command with its collaborator oracles: the
refresh (eligibility) command, the download command, or the upload command. -/
inductive PipeOp where
  | elig (discogsO : String → Option Int) (releaseO : Int → DiscogsRelease)
         (redactedO : String → Bool) (now : Int)
  | down (existing : List String) (fetchO : String → Bytes) (category : String) (now : Int)
  | up (respO : Int → PyVal) (fetchO : String → Bytes) (announce source : Bytes)
       (now : Int) (idOpt : Option Int)

/-- Run one pipeline command over the stored records. -/
def applyOp : PipeOp → List TorrentRec → Except PyError (List TorrentRec × List Call)
  | .elig dO rO xO now, db => update_eligibility dO rO xO now db
  | .down ex f c now, db => .ok (download_cmd ex f c now db)
  | .up rp f a s now idO, db => upload_cmd rp f a s now idO db

/-- Run a sequence of pipeline commands; a command that raises commits
nothing, so the stored records are unchanged by it. -/
def applyOps : List PipeOp → List TorrentRec → List TorrentRec
  | [], db => db
  | op :: ops, db =>
    match applyOp op db with
    | .ok (db', _) => applyOps ops db'
    | .error _ => applyOps ops db

/-- A pipeline command that does not use the explicit-id branch of the upload
command. -/
def noExplicitId : PipeOp → Prop
  | .up _ _ _ _ _ (some _) => False
  | _ => True

/-- Strict byte-wise key order on encoded dictionary entries. -/
def entryLt (a b : Bytes × Bytes) : Prop := entryLe a b ∧ a.1 ≠ b.1

/-- Forward direction of the lifecycle: the enum value of the status does not
decrease. -/
def rankLe (r r' : TorrentRec) : Prop := statusRank r.status ≤ statusRank r'.status

/-- A minimal valid info dictionary used by concrete witnesses. -/
def infoMin : List (Bytes × Bencode) := [(bsl "name", .str (bsl "x"))]

/-- The decoded top level of the minimal metainfo. -/
def tlMin : List (Bytes × Bencode) := [(bsl "info", .dict infoMin)]

/-- The minimal metainfo bytes: a document whose info dict maps name to x. -/
def inpMin : Bytes := bsl "d4:infod4:name1:xee"

/-- The rewritten info dictionary of the minimal metainfo for source RED and
private true. -/
def docMin : List (Bytes × Bencode) :=
  [(bsl "name", .str (bsl "x")), (bsl "private", .int 1), (bsl "source", .str (bsl "RED"))]

/-- A stored record in status eligible, used by concrete witnesses. -/
def recEligible : TorrentRec :=
  ⟨7, 100, "rel", "Artist", "Album", 1998, "http://dl", "srchash", none, none, none, 0, .eligible⟩

/-- A stored record in status tracked. -/
def recTracked : TorrentRec := { recEligible with id := 5, status := .tracked }

/-- A stored record in status downloaded. -/
def recDownloaded : TorrentRec := { recEligible with id := 8, status := .downloaded }

/-- An upload response oracle that always reports failure. -/
def respFailO : Int → PyVal := fun _ => .dict [("status", .str "failure")]

/-- An upload response oracle that always reports success with result ids. -/
def respOkO : Int → PyVal :=
  fun _ => .dict [("status", .str "success"),
                  ("response", .dict [("torrentid", .int 1), ("groupid", .int 2)])]

/-- A download collaborator that always serves the minimal metainfo. -/
def fetchMin : String → Bytes := fun _ => inpMin

/-- A Discogs search oracle that always matches release 42. -/
def discogsSome : String → Option Int := fun _ => some 42

/-- A Discogs full-record oracle whose artists field is present. -/
def releaseArtists : Int → DiscogsRelease := fun _ => ⟨some ["Boards of Canada"]⟩

/-- A Redacted duplicate-check oracle that never finds a duplicate. -/
def dupFalse : String → Bool := fun _ => false

/-- A sample run of the three pipeline commands, none using the explicit-id
branch. -/
def opsSample : List PipeOp :=
  [.elig discogsSome releaseArtists dupFalse 9,
   .down [] fetchMin "swarmchaser" 10,
   .up respOkO fetchMin (bsl "http://new") (bsl "RED") 11 none]

/-- First witness dictionary: keys inserted in descending order. -/
def xsW : List (Bytes × Bencode) := [(bsl "b", .int 1), (bsl "a", .int 2)]

/-- Second witness dictionary: the same bindings inserted in ascending order. -/
def ysW : List (Bytes × Bencode) := [(bsl "a", .int 2), (bsl "b", .int 1)]

theorem lexLe_total (a b : Bytes) : lexLe a b = true ∨ lexLe b a = true := by
  induction a generalizing b with
  | nil => left; rfl
  | cons x xs ih =>
    cases b with
    | nil => right; rfl
    | cons y ys =>
      by_cases h1 : x < y
      · left; simp [lexLe, h1]
      · by_cases h2 : y < x
        · right; simp [lexLe, h2]
        · have hxy : x = y := by omega
          subst hxy
          rcases ih ys with h | h
          · left; simp [lexLe, h]
          · right; simp [lexLe, h]

theorem lexLe_trans {a b c : Bytes} (h1 : lexLe a b = true) (h2 : lexLe b c = true) :
    lexLe a c = true := by
  induction a generalizing b c with
  | nil => rfl
  | cons x xs ih =>
    cases b with
    | nil => simp [lexLe] at h1
    | cons y ys =>
      cases c with
      | nil => simp [lexLe] at h2
      | cons z zs =>
        simp only [lexLe] at h1 h2 ⊢
        by_cases hxy : x < y
        · simp only [hxy, if_true] at h1
          by_cases hyz : y < z
          · simp [show x < z by omega]
          · by_cases hzy : z < y
            · simp [hyz, hzy] at h2
            · have : y = z := by omega
              subst this
              simp [hxy]
        · by_cases hyx : y < x
          · simp [hxy, hyx] at h1
          · have hxey : x = y := by omega
            subst hxey
            simp only [lt_irrefl, if_false] at h1
            by_cases hxz : x < z
            · simp [hxz]
            · by_cases hzx : z < x
              · simp [hxz, hzx] at h2
              · have : x = z := by omega
                subst this
                simp only [lt_irrefl, if_false] at h2 ⊢
                exact ih h1 h2

theorem lexLe_antisymm {a b : Bytes} (h1 : lexLe a b = true) (h2 : lexLe b a = true) :
    a = b := by
  induction a generalizing b with
  | nil =>
    cases b with
    | nil => rfl
    | cons y ys => simp [lexLe] at h2
  | cons x xs ih =>
    cases b with
    | nil => simp [lexLe] at h1
    | cons y ys =>
      simp only [lexLe] at h1 h2
      by_cases hxy : x < y
      · simp [hxy, show ¬ y < x by omega] at h2
      · by_cases hyx : y < x
        · simp [hxy, hyx] at h1
        · have hxey : x = y := by omega
          subst hxey
          simp only [lt_irrefl, if_false] at h1 h2
          rw [ih h1 h2]

theorem pairwise_and {α : Type} {R S : α → α → Prop} {l : List α}
    (hR : l.Pairwise R) (hS : l.Pairwise S) : l.Pairwise (fun a b => R a b ∧ S a b) := by
  induction l with
  | nil => exact .nil
  | cons x t ih =>
    cases hR with
    | cons hx hxs =>
      cases hS with
      | cons gx gxs => exact .cons (fun y hy => ⟨hx y hy, gx y hy⟩) (ih hxs gxs)

theorem encEntries_eq_map (xs : List (Bytes × Bencode)) : encEntries xs = xs.map encEntry := by
  induction xs with
  | nil => rfl
  | cons kv t ih => simp [encEntries, encEntry, ih]

theorem encEntries_keys (xs : List (Bytes × Bencode)) :
    (encEntries xs).map Prod.fst = xs.map Prod.fst := by
  rw [encEntries_eq_map, List.map_map]
  rfl

theorem pairwise_entryLt_of_sorted {l : List (Bytes × Bytes)}
    (hs : l.Pairwise entryLe) (hn : (l.map Prod.fst).Nodup) : l.Pairwise entryLt := by
  have hne : l.Pairwise (fun a b : Bytes × Bytes => a.1 ≠ b.1) := List.pairwise_map.mp hn
  exact pairwise_and hs hne

theorem sortEntries_canonical {A B : List (Bytes × Bytes)} (p : A.Perm B)
    (hn : (A.map Prod.fst).Nodup) : sortEntries A = sortEntries B := by
  haveI hTot : IsTotal (Bytes × Bytes) entryLe := ⟨fun a b => lexLe_total a.1 b.1⟩
  haveI hTrans : IsTrans (Bytes × Bytes) entryLe := ⟨fun _ _ _ h1 h2 => lexLe_trans h1 h2⟩
  haveI hAnti : IsAntisymm (Bytes × Bytes) entryLt :=
    ⟨fun a b h1 h2 => absurd (lexLe_antisymm h1.1 h2.1) h1.2⟩
  have s1 : (sortEntries A).Pairwise entryLe := List.sorted_insertionSort entryLe A
  have s2 : (sortEntries B).Pairwise entryLe := List.sorted_insertionSort entryLe B
  have q : (sortEntries A).Perm (sortEntries B) :=
    (List.perm_insertionSort entryLe A).trans (p.trans (List.perm_insertionSort entryLe B).symm)
  have hk1 : ((sortEntries A).map Prod.fst).Nodup :=
    (((List.perm_insertionSort entryLe A).map Prod.fst).nodup_iff).mpr hn
  have hk2 : ((sortEntries B).map Prod.fst).Nodup :=
    (((q.symm.trans (List.perm_insertionSort entryLe A)).map Prod.fst).nodup_iff).mpr hn
  exact List.eq_of_perm_of_sorted q
    (pairwise_entryLt_of_sorted s1 hk1) (pairwise_entryLt_of_sorted s2 hk2)

/-- C1: for every dictionary value encoded by the codec used in the rewriter
and infohash computation, the encoded output emits the dictionary's keys in
strictly ascending byte-wise order regardless of the order in which the keys
were inserted; consequently, any two structurally equal info dictionaries
(the same key-value bindings, in any insertion order, with unique keys)
produce identical encodings and hence identical infohash digests. -/
theorem C1_canonical_order_and_determinism (xs ys : List (Bytes × Bencode))
    (hperm : xs.Perm ys) (hnd : (xs.map Prod.fst).Nodup) :
    (encKeys xs).Pairwise (fun k k' => lexLe k k' = true ∧ k ≠ k') ∧
    benencode (.dict xs) = benencode (.dict ys) ∧
    sha1hex (benencode (.dict xs)) = sha1hex (benencode (.dict ys)) := by
  haveI hTot : IsTotal (Bytes × Bytes) entryLe := ⟨fun a b => lexLe_total a.1 b.1⟩
  haveI hTrans : IsTrans (Bytes × Bytes) entryLe := ⟨fun _ _ _ h1 h2 => lexLe_trans h1 h2⟩
  have hndE : ((encEntries xs).map Prod.fst).Nodup := by rw [encEntries_keys]; exact hnd
  have p : (encEntries xs).Perm (encEntries ys) := by
    rw [encEntries_eq_map, encEntries_eq_map]
    exact hperm.map encEntry
  have hsorted : (sortEntries (encEntries xs)).Pairwise entryLe :=
    List.sorted_insertionSort entryLe (encEntries xs)
  have hkeys : ((sortEntries (encEntries xs)).map Prod.fst).Nodup :=
    (((List.perm_insertionSort entryLe (encEntries xs)).map Prod.fst).nodup_iff).mpr hndE
  have hstrict : (sortEntries (encEntries xs)).Pairwise entryLt :=
    pairwise_entryLt_of_sorted hsorted hkeys
  have heq : sortEntries (encEntries xs) = sortEntries (encEntries ys) :=
    sortEntries_canonical p hndE
  refine ⟨List.pairwise_map.mpr hstrict, ?_, ?_⟩
  · simp only [benencode, heq]
  · simp only [benencode, heq]

/-- Witness for C1 at a concrete pair of dictionaries holding the same
bindings in opposite insertion orders. -/
theorem C1_witness :
    (xsW.map Prod.fst).Nodup ∧
    benencode (.dict xsW) = benencode (.dict ysW) ∧
    sha1hex (benencode (.dict xsW)) = sha1hex (benencode (.dict ysW)) :=
  have hperm : xsW.Perm ysW := by
    unfold xsW ysW
    exact List.Perm.swap (bsl "a", Bencode.int 2) (bsl "b", Bencode.int 1) []
  ⟨by decide,
   (C1_canonical_order_and_determinism xsW ysW hperm (by decide)).2.1,
   (C1_canonical_order_and_determinism xsW ysW hperm (by decide)).2.2⟩

theorem lookupD_isSome_of_mem {xs : List (Bytes × Bencode)} {k : Bytes}
    (h : k ∈ xs.map Prod.fst) : (lookupD xs k).isSome = true := by
  induction xs with
  | nil => simp at h
  | cons kv t ih =>
    by_cases hk : kv.1 = k
    · simp [lookupD, hk]
    · have hmem : k ∈ t.map Prod.fst := by
        rcases List.mem_cons.mp h with h0 | h0
        · exact absurd h0.symm hk
        · exact h0
      simp [lookupD, hk, ih hmem]

theorem lookupD_eq_none_of_not_mem {xs : List (Bytes × Bencode)} {k : Bytes}
    (h : k ∉ xs.map Prod.fst) : lookupD xs k = none := by
  induction xs with
  | nil => rfl
  | cons kv t ih =>
    have hk : kv.1 ≠ k := fun hc => h (List.mem_cons.mpr (.inl hc.symm))
    have hmem : k ∉ t.map Prod.fst := fun hc => h (List.mem_cons.mpr (.inr hc))
    simp [lookupD, hk, ih hmem]

theorem lookupD_pairsOf {info : List (Bytes × Bencode)} :
    ∀ {ks : List Bytes}, (∀ k0 ∈ ks, (lookupD info k0).isSome = true) → ∀ k,
      lookupD (pairsOf info ks) k = if k ∈ ks then lookupD info k else none := by
  intro ks
  induction ks with
  | nil =>
    intro _ k
    simp [pairsOf, lookupD]
  | cons k0 t ih =>
    intro hall k
    have h0 : (lookupD info k0).isSome = true := hall k0 (List.mem_cons.mpr (.inl rfl))
    obtain ⟨v, hv⟩ := Option.isSome_iff_exists.mp h0
    have hrec := ih (fun k1 hk1 => hall k1 (List.mem_cons.mpr (.inr hk1)))
    have hexp : pairsOf info (k0 :: t) = (k0, v) :: pairsOf info t := by
      simp [pairsOf, List.filterMap, hv]
    rw [hexp]
    by_cases hk : k0 = k
    · subst hk
      simp [lookupD, hv]
    · have hne : k ≠ k0 := fun hc => hk hc.symm
      simp only [lookupD, hk, if_false, hrec k]
      by_cases hm : k ∈ t
      · simp [hm, hne]
      · simp [hm, hne]

theorem lookupD_sorted_rebuild (info : List (Bytes × Bencode)) (k : Bytes) :
    lookupD (pairsOf info (sortBytes (info.map Prod.fst))) k = lookupD info k := by
  have hall : ∀ k0 ∈ sortBytes (info.map Prod.fst), (lookupD info k0).isSome = true := by
    intro k0 hk0
    exact lookupD_isSome_of_mem (((List.perm_insertionSort byteLe _).mem_iff).mp hk0)
  rw [lookupD_pairsOf hall k]
  by_cases hm : k ∈ sortBytes (info.map Prod.fst)
  · simp [hm]
  · have hnm : k ∉ info.map Prod.fst :=
      fun hc => hm (((List.perm_insertionSort byteLe _).mem_iff).mpr hc)
    simp [hm, lookupD_eq_none_of_not_mem hnm]

theorem lookupD_dictSet_self (xs : List (Bytes × Bencode)) (k : Bytes) (v : Bencode) :
    lookupD (dictSet xs k v) k = some v := by
  induction xs with
  | nil => simp [dictSet, lookupD]
  | cons kv t ih =>
    by_cases h : kv.1 = k
    · simp [dictSet, h, lookupD]
    · simp [dictSet, h, lookupD, ih]

theorem lookupD_dictSet_ne (xs : List (Bytes × Bencode)) (k : Bytes) (v : Bencode)
    {q : Bytes} (h : q ≠ k) : lookupD (dictSet xs k v) q = lookupD xs q := by
  have hkq : ¬ k = q := fun hc => h hc.symm
  induction xs with
  | nil => simp [dictSet, lookupD, hkq]
  | cons kv t ih =>
    by_cases hk : kv.1 = k
    · have hkvq : ¬ kv.1 = q := by rw [hk]; exact hkq
      simp [dictSet, hk, lookupD, hkq, hkvq]
    · by_cases hq : kv.1 = q
      · simp [dictSet, hk, lookupD, hq, h]
      · simp [dictSet, hk, lookupD, hq, ih]

/-- C2: for every valid input metainfo, the rewritten document's info
dictionary binds every key other than private and source to exactly the value
the input's info dictionary binds it to (so name, piece length, pieces and
length or files are unchanged, and no field is added or dropped besides the
two), while private is set to the numeric private flag and source to the
source tag. -/
theorem C2_rewrite_preserves_identity_fields (announce source : Bytes) (priv : Bool)
    (now : Int) (input : Bytes) (tl : List (Bytes × Bencode)) (rest : Bytes)
    (infoL : List (Bytes × Bencode))
    (hdec : bdecode input = some (.dict tl, rest))
    (hinfo : lookupD tl (bsl "info") = some (.dict infoL)) :
    setup_torrent announce source priv now input =
      some [(bsl "announce", .str announce), (bsl "creation date", .int now),
            (bsl "info", .dict (new_info source priv infoL))] ∧
    (∀ k, k ≠ bsl "private" → k ≠ bsl "source" →
      lookupD (new_info source priv infoL) k = lookupD infoL k) ∧
    lookupD (new_info source priv infoL) (bsl "private") =
      some (.int (if priv then 1 else 0)) ∧
    lookupD (new_info source priv infoL) (bsl "source") = some (.str source) := by
  refine ⟨?_, ?_, ?_, ?_⟩
  · simp only [setup_torrent, hdec, setup_torrent_doc, hinfo]
  · intro k h1 h2
    simp only [new_info]
    rw [lookupD_sorted_rebuild, lookupD_dictSet_ne _ _ _ h2, lookupD_dictSet_ne _ _ _ h1]
  · simp only [new_info]
    rw [lookupD_sorted_rebuild, lookupD_dictSet_ne _ _ _ (by decide), lookupD_dictSet_self]
  · simp only [new_info]
    rw [lookupD_sorted_rebuild, lookupD_dictSet_self]

/-- Witness for C2 on the minimal metainfo: the name field survives the
rewrite unchanged and private and source are set. -/
theorem C2_witness :
    bdecode inpMin = some (.dict tlMin, []) ∧
    lookupD tlMin (bsl "info") = some (.dict infoMin) ∧
    lookupD (new_info (bsl "RED") true infoMin) (bsl "name") = lookupD infoMin (bsl "name") ∧
    lookupD (new_info (bsl "RED") true infoMin) (bsl "private") = some (.int 1) ∧
    lookupD (new_info (bsl "RED") true infoMin) (bsl "source") = some (.str (bsl "RED")) :=
  ⟨rfl, rfl,
   (C2_rewrite_preserves_identity_fields (bsl "http://new") (bsl "RED") true 77 inpMin
     tlMin [] infoMin rfl rfl).2.1 (bsl "name") (by decide) (by decide),
   (C2_rewrite_preserves_identity_fields (bsl "http://new") (bsl "RED") true 77 inpMin
     tlMin [] infoMin rfl rfl).2.2.1,
   (C2_rewrite_preserves_identity_fields (bsl "http://new") (bsl "RED") true 77 inpMin
     tlMin [] infoMin rfl rfl).2.2.2⟩

/-- C3 as stated is false: rewriting the minimal metainfo yields a top-level
dictionary with the three keys announce, creation date and info, not only the
claimed two. -/
theorem C3_counterexample :
    Option.map (fun d => d.map Prod.fst)
        (setup_torrent (bsl "http://new") (bsl "RED") true 77 inpMin) =
      some [bsl "announce", bsl "creation date", bsl "info"] ∧
    ¬ (bsl "creation date" = bsl "announce" ∨ bsl "creation date" = bsl "info") :=
  ⟨rfl, by decide⟩

/-- C3 amended: for every valid input metainfo the rewritten top-level
dictionary holds exactly the three keys announce (the new URL), creation date
(the rewrite timestamp) and info (the modified copy); every other top-level
key of the original document is discarded. -/
theorem C3_top_level_keys (announce source : Bytes) (priv : Bool) (now : Int)
    (input : Bytes) (tl : List (Bytes × Bencode)) (rest : Bytes)
    (infoL : List (Bytes × Bencode))
    (hdec : bdecode input = some (.dict tl, rest))
    (hinfo : lookupD tl (bsl "info") = some (.dict infoL)) :
    setup_torrent announce source priv now input =
      some [(bsl "announce", .str announce), (bsl "creation date", .int now),
            (bsl "info", .dict (new_info source priv infoL))] := by
  simp only [setup_torrent, hdec, setup_torrent_doc, hinfo]

/-- Witness for the amended C3 on a metainfo that carries extra top-level
keys, all of which are discarded. -/
theorem C3_witness :
    bdecode (bsl "d8:announce10:http://old7:comment2:hi4:infod4:name1:xee") =
      some (.dict [(bsl "announce", .str (bsl "http://old")),
                   (bsl "comment", .str (bsl "hi")),
                   (bsl "info", .dict infoMin)], []) ∧
    setup_torrent (bsl "http://new") (bsl "RED") true 77
        (bsl "d8:announce10:http://old7:comment2:hi4:infod4:name1:xee") =
      some [(bsl "announce", .str (bsl "http://new")), (bsl "creation date", .int 77),
            (bsl "info", .dict (new_info (bsl "RED") true infoMin))] :=
  ⟨rfl,
   C3_top_level_keys (bsl "http://new") (bsl "RED") true 77
     (bsl "d8:announce10:http://old7:comment2:hi4:infod4:name1:xee")
     [(bsl "announce", .str (bsl "http://old")), (bsl "comment", .str (bsl "hi")),
      (bsl "info", .dict infoMin)] [] infoMin rfl rfl⟩

theorem hexN_length (k : Nat) : ∀ v : Nat, (hexN k v).length = k := by
  induction k with
  | zero => intro v; rfl
  | succ k ih => intro v; simp [hexN, ih]

theorem sha1hex_length (m : Bytes) : (sha1hex m).length = 40 := by
  show (hexN 8 (sha1state m).a ++ hexN 8 (sha1state m).b ++ hexN 8 (sha1state m).c ++
    hexN 8 (sha1state m).d ++ hexN 8 (sha1state m).e).length = 40
  simp [List.length_append, hexN_length]

/-- C7: the infohash computation encodes the info dictionary of the decoded
document with the bencode codec, applies SHA-1 to the encoded bytes, and
returns the hexdigest of the resulting 20-byte digest (40 hex characters); as
a function of the input bytes it is pure and deterministic. -/
theorem C7_infohash_definition (t : Bytes) (tl : List (Bytes × Bencode)) (rest : Bytes)
    (v : Bencode) (hdec : bdecode t = some (.dict tl, rest))
    (hinfo : lookupD tl (bsl "info") = some v) :
    infohash t = some (sha1hex (benencode v)) ∧
    (sha1hex (benencode v)).length = 40 := by
  constructor
  · simp only [infohash, hdec, hinfo, Option.map]
  · exact sha1hex_length (benencode v)

/-- Witness for C7 on the minimal metainfo. -/
theorem C7_witness :
    bdecode inpMin = some (.dict tlMin, []) ∧
    lookupD tlMin (bsl "info") = some (.dict infoMin) ∧
    infohash inpMin = some (sha1hex (benencode (.dict infoMin))) ∧
    (sha1hex (benencode (.dict infoMin))).length = 40 :=
  ⟨rfl, rfl,
   (C7_infohash_definition inpMin tlMin [] (.dict infoMin) rfl rfl).1,
   (C7_infohash_definition inpMin tlMin [] (.dict infoMin) rfl rfl).2⟩

/-- C5: for every record in status tracked processed by the eligibility step:
when the matcher returns no result the record becomes ineligible with no
other field change; when a match is found but the duplicate check is true the
record becomes ineligible and the matched id and full record are still
stored; when a match is found and the duplicate check is false the record
becomes eligible, the matched metadata is stored, and its timestamp is
updated. -/
theorem C5_eligibility_transitions (discogsO : String → Option Int)
    (releaseO : Int → DiscogsRelease) (redactedO : String → Bool) (now : Int)
    (r : TorrentRec) (ht : r.status = .tracked) :
    (discogsO (search_query r) = none →
      eligRecord discogsO releaseO redactedO now r =
        .ok ({ r with status := .ineligible }, [.discogsSearch (search_query r)])) ∧
    (∀ did artists, discogsO (search_query r) = some did →
      releaseO did = ⟨some artists⟩ →
      ((redactedO (search_query r) = true →
        eligRecord discogsO releaseO redactedO now r =
          .ok ({ r with
                   status := .ineligible, discogs_release_id := some did,
                   discogs_release := some ⟨some artists⟩ },
               [.discogsSearch (search_query r), .discogsRelease did,
                .redactedSearch (search_query r)])) ∧
       (redactedO (search_query r) = false →
        eligRecord discogsO releaseO redactedO now r =
          .ok ({ r with
                   status := .eligible, discogs_release_id := some did,
                   discogs_release := some ⟨some artists⟩, last_updated := now },
               [.discogsSearch (search_query r), .discogsRelease did,
                .redactedSearch (search_query r)])))) := by
  constructor
  · intro hnone
    simp only [eligRecord, hnone]
  · intro did artists hsome hrel
    constructor
    · intro hdup
      simp only [eligRecord, hsome, hrel, hdup, if_true]
    · intro hdup
      simp only [eligRecord, hsome, hrel, hdup, if_false, Bool.false_eq_true]

/-- Witness for C5: a tracked record matched by the Discogs oracle with no
Redacted duplicate becomes eligible with the metadata stored and the
timestamp updated. -/
theorem C5_witness :
    recTracked.status = .tracked ∧
    discogsSome (search_query recTracked) = some 42 ∧
    releaseArtists 42 = ⟨some ["Boards of Canada"]⟩ ∧
    dupFalse (search_query recTracked) = false ∧
    eligRecord discogsSome releaseArtists dupFalse 9 recTracked =
      .ok ({ recTracked with
               status := .eligible, discogs_release_id := some 42,
               discogs_release := some ⟨some ["Boards of Canada"]⟩, last_updated := 9 },
           [.discogsSearch (search_query recTracked), .discogsRelease 42,
            .redactedSearch (search_query recTracked)]) :=
  ⟨rfl, rfl, rfl, rfl,
   ((C5_eligibility_transitions discogsSome releaseArtists dupFalse 9 recTracked rfl).2
     42 ["Boards of Canada"] rfl rfl).2 rfl⟩

/-- C8 as stated is false: the genre parser splits the field on its commas
before the compound special case of format_genre can apply, so the result is
three tags, not the single empty tag. -/
theorem C8_counterexample :
    parse_genres "Folk, World, & Country" = ["folk", "world", "&.country"] ∧
    parse_genres "Folk, World, & Country" ≠ [""] := by
  constructor
  · rfl
  · decide

/-- C8 amended: parsing the genre field Folk, World, & Country through the
genre parser yields the tags folk, world and &.country, because the comma
separator splits the field first; the empty-tag quirk applies only when
format_genre receives the whole literal as a single tag, as it does on the
genres list of a metadata record. -/
theorem C8_genre_quirk :
    parse_genres "Folk, World, & Country" = ["folk", "world", "&.country"] ∧
    format_genre "Folk, World, & Country" = "" := by
  constructor
  · rfl
  · rfl

/-- C9: the documented release title parses to the expected artist, album,
year and normalized genre tag. -/
theorem C9_title_example :
    parse_releasename
        "(Electronic) [FLAC] Boards of Canada - Music Has the Right to Children - 1998, WEB" =
      some ⟨"Boards of Canada", "Music Has the Right to Children", 1998, ["electronic"]⟩ := by
  rfl

/-- C4 is contradicted by the code: when the destination tracker reports
failure for a record, the failure branch evaluates its log message, whose
response.json() is attribute access on the already-decoded response
dictionary; the AttributeError aborts the loop before session.commit, so the
failure is not logged and the batch does not continue with the next record.
Evaluated here on a two-record batch in status downloaded whose responses
report failure: the whole upload command raises instead of processing both
records. -/
theorem C4_failure_crashes_upload :
    respFailO recDownloaded.id = .dict [("status", .str "failure")] ∧
    recDownloaded.status = .downloaded ∧
    upload_cmd respFailO fetchMin (bsl "http://new") (bsl "RED") 5 none
        [recDownloaded, recDownloaded] = .error .attributeError :=
  ⟨rfl, rfl, rfl⟩

/-- C10: for every record whose upload succeeds, the upload command, beyond
marking the record uploaded, storing the target infohash of the rewritten
file and refreshing the timestamp, also adds the rewritten torrent file to
the download client (category swarmchaser, tag myupload) and deletes the
original torrent from the client by the record's source infohash. -/
theorem C10_upload_side_effects (respO : Int → PyVal) (fetchO : String → Bytes)
    (announce source : Bytes) (now : Int) (r : TorrentRec) (inner tid gid : PyVal)
    (doc : List (Bytes × Bencode))
    (hs : pyIndex (respO r.id) "status" = .ok (.str "success"))
    (hresp : pyIndex (respO r.id) "response" = .ok inner)
    (htid : pyIndex inner "torrentid" = .ok tid)
    (hgid : pyIndex inner "groupid" = .ok gid)
    (hne : fetchO r.download_url ≠ [])
    (hdoc : setup_torrent announce source true now (fetchO r.download_url) = some doc)
    (hih : (infohash (benencode (.dict doc))).isSome = true) :
    uploadRecord respO fetchO announce source now r =
      .ok ({ r with
             status := .uploaded, last_updated := now,
             target_infohash := infohash (benencode (.dict doc)) },
           [.redactedUpload r.id,
            .qbtAdd (benencode (.dict doc)) "swarmchaser" (some "myupload"),
            .qbtDelete r.source_infohash]) := by
  have hsv : pyIsSuccess (.str "success") = true := by decide
  simp only [uploadRecord, hs, hresp, htid, hgid, hsv, if_true, hdoc]
  simp [hne, hih]

/-- Witness for C10: a successful upload of the downloaded sample record adds
the rewritten minimal torrent and deletes the original by source infohash. -/
theorem C10_witness :
    pyIndex (respOkO recDownloaded.id) "status" = .ok (.str "success") ∧
    setup_torrent (bsl "http://new") (bsl "RED") true 11
        (fetchMin recDownloaded.download_url) =
      some [(bsl "announce", .str (bsl "http://new")), (bsl "creation date", .int 11),
            (bsl "info", .dict docMin)] ∧
    uploadRecord respOkO fetchMin (bsl "http://new") (bsl "RED") 11 recDownloaded =
      .ok ({ recDownloaded with
             status := .uploaded, last_updated := 11,
             target_infohash := infohash (benencode (.dict
               [(bsl "announce", .str (bsl "http://new")), (bsl "creation date", .int 11),
                (bsl "info", .dict docMin)])) },
           [.redactedUpload recDownloaded.id,
            .qbtAdd (benencode (.dict
               [(bsl "announce", .str (bsl "http://new")), (bsl "creation date", .int 11),
                (bsl "info", .dict docMin)])) "swarmchaser" (some "myupload"),
            .qbtDelete recDownloaded.source_infohash]) :=
  ⟨rfl, rfl,
   C10_upload_side_effects respOkO fetchMin (bsl "http://new") (bsl "RED") 11 recDownloaded
     (.dict [("torrentid", .int 1), ("groupid", .int 2)]) (.int 1) (.int 2)
     [(bsl "announce", .str (bsl "http://new")), (bsl "creation date", .int 11),
      (bsl "info", .dict docMin)]
     rfl rfl rfl rfl (by decide) rfl (by rfl)⟩

theorem eligRecord_status {dO : String → Option Int} {rO : Int → DiscogsRelease}
    {xO : String → Bool} {now : Int} {r r' : TorrentRec} {cs : List Call}
    (h : eligRecord dO rO xO now r = .ok (r', cs)) :
    r'.status = .ineligible ∨ r'.status = .eligible := by
  simp only [eligRecord] at h
  split at h
  · injection h with h
    injection h with h1 h2
    subst h1
    exact .inl rfl
  · split at h
    · exact absurd h (by simp)
    · split at h
      · injection h with h
        injection h with h1 h2
        subst h1
        exact .inl rfl
      · injection h with h
        injection h with h1 h2
        subst h1
        exact .inr rfl

theorem rank_eligRecord {dO : String → Option Int} {rO : Int → DiscogsRelease}
    {xO : String → Bool} {now : Int} {r r' : TorrentRec} {cs : List Call}
    (h : eligRecord dO rO xO now r = .ok (r', cs)) (ht : r.status = .tracked) :
    rankLe r r' := by
  show statusRank r.status ≤ statusRank r'.status
  rw [ht]
  rcases eligRecord_status h with h' | h' <;> rw [h'] <;> decide

theorem update_eligibility_rank {dO : String → Option Int} {rO : Int → DiscogsRelease}
    {xO : String → Bool} {now : Int} :
    ∀ {db db' : List TorrentRec} {cs : List Call},
      update_eligibility dO rO xO now db = .ok (db', cs) → List.Forall₂ rankLe db db' := by
  intro db
  induction db with
  | nil =>
    intro db' cs h
    simp only [update_eligibility, Except.ok.injEq, Prod.mk.injEq] at h
    rw [← h.1]
    exact .nil
  | cons r rs ih =>
    intro db' cs h
    simp only [update_eligibility] at h
    by_cases ht : r.status = .tracked
    · rw [if_pos ht] at h
      cases hE : eligRecord dO rO xO now r with
      | error e =>
        simp only [hE] at h
        exact Except.noConfusion h
      | ok p =>
        cases p with
        | mk r1 cs1 =>
          simp only [hE] at h
          cases hU : update_eligibility dO rO xO now rs with
          | error e =>
            simp only [hU] at h
            exact Except.noConfusion h
          | ok q =>
            cases q with
            | mk rs1 cs2 =>
              simp only [hU, Except.ok.injEq, Prod.mk.injEq] at h
              rw [← h.1]
              exact .cons (rank_eligRecord hE ht) (ih hU)
    · rw [if_neg ht] at h
      cases hU : update_eligibility dO rO xO now rs with
      | error e =>
        simp only [hU] at h
        exact Except.noConfusion h
      | ok q =>
        cases q with
        | mk rs1 cs2 =>
          simp only [hU, Except.ok.injEq, Prod.mk.injEq] at h
          rw [← h.1]
          exact .cons (Nat.le_refl _) (ih hU)

theorem download_cmd_rank (ex : List String) (f : String → Bytes) (c : String) (now : Int) :
    ∀ db : List TorrentRec, List.Forall₂ rankLe db (download_cmd ex f c now db).1 := by
  intro db
  induction db with
  | nil => exact .nil
  | cons r rs ih =>
    by_cases he : r.status = .eligible
    · by_cases hm : r.source_infohash ∈ ex
      · simp only [download_cmd, if_pos he, if_pos hm]
        exact .cons (Nat.le_refl _) ih
      · simp only [download_cmd, if_pos he, if_neg hm]
        refine .cons ?_ ih
        show statusRank r.status ≤ statusRank TorrentStatus.downloaded
        rw [he]
        decide
    · simp only [download_cmd, if_neg he]
      exact .cons (Nat.le_refl _) ih

theorem uploadRecord_status {respO : Int → PyVal} {fetchO : String → Bytes}
    {a s : Bytes} {now : Int} {r r' : TorrentRec} {cs : List Call}
    (h : uploadRecord respO fetchO a s now r = .ok (r', cs)) :
    r' = r ∨ r'.status = .uploaded := by
  simp only [uploadRecord] at h
  repeat' split at h
  all_goals
    first
    | exact Except.noConfusion h
    | (injection h with h; injection h with h1 h2; subst h1;
       first
       | exact .inr rfl
       | exact .inl rfl)

theorem upload_downloaded_rank {respO : Int → PyVal} {fetchO : String → Bytes}
    {a s : Bytes} {now : Int} :
    ∀ {db db' : List TorrentRec} {cs : List Call},
      upload_downloaded respO fetchO a s now db = .ok (db', cs) →
      List.Forall₂ rankLe db db' := by
  intro db
  induction db with
  | nil =>
    intro db' cs h
    simp only [upload_downloaded, Except.ok.injEq, Prod.mk.injEq] at h
    rw [← h.1]
    exact .nil
  | cons r rs ih =>
    intro db' cs h
    simp only [upload_downloaded] at h
    by_cases ht : r.status = .downloaded
    · rw [if_pos ht] at h
      cases hE : uploadRecord respO fetchO a s now r with
      | error e =>
        simp only [hE] at h
        exact Except.noConfusion h
      | ok p =>
        cases p with
        | mk r1 cs1 =>
          simp only [hE] at h
          cases hU : upload_downloaded respO fetchO a s now rs with
          | error e =>
            simp only [hU] at h
            exact Except.noConfusion h
          | ok q =>
            cases q with
            | mk rs1 cs2 =>
              simp only [hU, Except.ok.injEq, Prod.mk.injEq] at h
              rw [← h.1]
              refine .cons ?_ (ih hU)
              rcases uploadRecord_status hE with h' | h'
              · rw [h']
                exact Nat.le_refl _
              · show statusRank r.status ≤ statusRank r1.status
                rw [ht, h']
                decide
    · rw [if_neg ht] at h
      cases hU : upload_downloaded respO fetchO a s now rs with
      | error e =>
        simp only [hU] at h
        exact Except.noConfusion h
      | ok q =>
        cases q with
        | mk rs1 cs2 =>
          simp only [hU, Except.ok.injEq, Prod.mk.injEq] at h
          rw [← h.1]
          exact .cons (Nat.le_refl _) (ih hU)

theorem applyOp_rank {op : PipeOp} {db db' : List TorrentRec} {cs : List Call}
    (hop : noExplicitId op) (h : applyOp op db = .ok (db', cs)) :
    List.Forall₂ rankLe db db' := by
  cases op with
  | elig dO rO xO now => exact update_eligibility_rank h
  | down ex f c now =>
    simp only [applyOp, Except.ok.injEq] at h
    have h1 : (download_cmd ex f c now db).1 = db' := by rw [h]
    rw [← h1]
    exact download_cmd_rank ex f c now db
  | up rp f a s now idO =>
    cases idO with
    | some i => simp [noExplicitId] at hop
    | none =>
      simp only [applyOp, upload_cmd] at h
      exact upload_downloaded_rank h

theorem forall2_rank_refl : ∀ db : List TorrentRec, List.Forall₂ rankLe db db
  | [] => .nil
  | _ :: rs => .cons (Nat.le_refl _) (forall2_rank_refl rs)

theorem forall2_rank_trans {a b c : List TorrentRec}
    (h1 : List.Forall₂ rankLe a b) (h2 : List.Forall₂ rankLe b c) :
    List.Forall₂ rankLe a c := by
  induction h1 generalizing c with
  | nil =>
    cases h2
    exact .nil
  | cons hr ht ih =>
    cases h2 with
    | cons hr2 ht2 => exact .cons (Nat.le_trans hr hr2) (ih ht2)

theorem applyOps_rank : ∀ ops : List PipeOp, (∀ op ∈ ops, noExplicitId op) →
    ∀ db : List TorrentRec, List.Forall₂ rankLe db (applyOps ops db) := by
  intro ops
  induction ops with
  | nil =>
    intro _ db
    exact forall2_rank_refl db
  | cons op t ih =>
    intro hops db
    have hrest := fun o ho => hops o (List.mem_cons.mpr (.inr ho))
    cases hA : applyOp op db with
    | ok p =>
      cases p with
      | mk db1 cs =>
        simp only [applyOps, hA]
        exact forall2_rank_trans
          (applyOp_rank (hops op (List.mem_cons.mpr (.inl rfl))) hA) (ih hrest db1)
    | error e =>
      simp only [applyOps, hA]
      exact ih hrest db

theorem update_eligibility_skips_non_tracked {dO : String → Option Int}
    {rO : Int → DiscogsRelease} {xO : String → Bool} {now : Int} :
    ∀ db : List TorrentRec, (∀ r ∈ db, r.status ≠ .tracked) →
      update_eligibility dO rO xO now db = .ok (db, []) := by
  intro db
  induction db with
  | nil => intro _; rfl
  | cons r rs ih =>
    intro hall
    have ht : ¬ r.status = .tracked := hall r (List.mem_cons.mpr (.inl rfl))
    have hrec := ih (fun x hx => hall x (List.mem_cons.mpr (.inr hx)))
    simp only [update_eligibility, if_neg ht, hrec]

theorem download_cmd_skips_non_eligible {ex : List String} {f : String → Bytes}
    {c : String} {now : Int} :
    ∀ db : List TorrentRec, (∀ r ∈ db, r.status ≠ .eligible) →
      download_cmd ex f c now db = (db, []) := by
  intro db
  induction db with
  | nil => intro _; rfl
  | cons r rs ih =>
    intro hall
    have he : ¬ r.status = .eligible := hall r (List.mem_cons.mpr (.inl rfl))
    have hrec := ih (fun x hx => hall x (List.mem_cons.mpr (.inr hx)))
    simp only [download_cmd, if_neg he, hrec]

theorem upload_cmd_skips_non_downloaded {rp : Int → PyVal} {f : String → Bytes}
    {a s : Bytes} {now : Int} :
    ∀ db : List TorrentRec, (∀ r ∈ db, r.status ≠ .downloaded) →
      upload_cmd rp f a s now none db = .ok (db, []) := by
  intro db
  induction db with
  | nil => intro _; rfl
  | cons r rs ih =>
    intro hall
    have hd : ¬ r.status = .downloaded := hall r (List.mem_cons.mpr (.inl rfl))
    have hrec := ih (fun x hx => hall x (List.mem_cons.mpr (.inr hx)))
    simp only [upload_cmd] at hrec ⊢
    simp only [upload_downloaded, if_neg hd, hrec]

/-- C6 as stated is false: the upload command invoked with an explicit record
id selects the record by id regardless of its status, so it reads, uploads
and transitions a record that is in status eligible, not downloaded.  Here a
one-record store in status eligible is moved straight to uploaded and an
upload call is issued for it. -/
theorem C6_counterexample :
    recEligible.status = .eligible ∧
    (upload_cmd respOkO fetchMin (bsl "http://new") (bsl "RED") 5 (some 7)
        [recEligible]).map
        (fun p => (p.1.map (fun t => t.status), p.2.headD (.discogsSearch ""))) =
      .ok ([.uploaded], .redactedUpload 7) :=
  ⟨rfl, rfl⟩

/-- C6 amended: when the upload command is not given an explicit record id,
statuses never move backward (by their enum value) across any sequence of
eligibility, download and upload runs, and each step leaves a store without
records in its source status untouched while issuing no collaborator calls:
the eligibility step reads only records in tracked, the download step only
records in eligible, and the upload step only records in downloaded. -/
theorem C6_forward_only_without_id :
    (∀ ops : List PipeOp, (∀ op ∈ ops, noExplicitId op) →
      ∀ db : List TorrentRec, List.Forall₂ rankLe db (applyOps ops db)) ∧
    (∀ (dO : String → Option Int) (rO : Int → DiscogsRelease) (xO : String → Bool)
        (now : Int) (db : List TorrentRec), (∀ r ∈ db, r.status ≠ .tracked) →
      update_eligibility dO rO xO now db = .ok (db, [])) ∧
    (∀ (ex : List String) (f : String → Bytes) (c : String) (now : Int)
        (db : List TorrentRec), (∀ r ∈ db, r.status ≠ .eligible) →
      download_cmd ex f c now db = (db, [])) ∧
    (∀ (rp : Int → PyVal) (f : String → Bytes) (a s : Bytes) (now : Int)
        (db : List TorrentRec), (∀ r ∈ db, r.status ≠ .downloaded) →
      upload_cmd rp f a s now none db = .ok (db, [])) :=
  ⟨applyOps_rank,
   fun _ _ _ _ db => update_eligibility_skips_non_tracked db,
   fun _ _ _ _ db => download_cmd_skips_non_eligible db,
   fun _ _ _ _ _ db => upload_cmd_skips_non_downloaded db⟩

/-- Witness for the amended C6: the sample id-free run over a one-record
store never lowers the record's status rank. -/
theorem C6_witness :
    (∀ op ∈ opsSample, noExplicitId op) ∧
    List.Forall₂ rankLe [recTracked] (applyOps opsSample [recTracked]) := by
  have hops : ∀ op ∈ opsSample, noExplicitId op := by
    intro op h
    rcases List.mem_cons.mp h with h1 | h
    · subst h1; trivial
    rcases List.mem_cons.mp h with h1 | h
    · subst h1; trivial
    rcases List.mem_cons.mp h with h1 | h
    · subst h1; trivial
    exact absurd h (List.not_mem_nil op)
  exact ⟨hops, C6_forward_only_without_id.1 opsSample hops [recTracked]⟩
